import Mathlib

/-!
Verification of the criteria-assistant-web highlight pipeline.

This file shallowly embeds the modules of the repository that the checked
properties concern — the coordinate projector, the tokenizer, the matcher,
the match store and the search controller — and proves or refutes each
property.  Numeric quantities are modelled over `ℚ` (the source computes in
JS doubles; the properties under check carry a 0.5-unit tolerance intended
to absorb rounding, and the rotation angles in use are right angles, whose
sine and cosine are exact).
-/

namespace CAW

/-! ## Projector (`src/modules/projector/projector.ts`) -/

/-- A viewport: CSS dimensions, zoom scale, rotation in degrees. -/
structure Viewport where
  width : ℚ
  height : ℚ
  scale : ℚ
  rotation : Int
  deriving Repr, DecidableEq

/-- A rectangle `[x, y, w, h]` (PDF space: x, y, w, h with y-up origin
bottom-left; CSS space: left, top, width, height with y-down origin
top-left).  The source uses 4-tuples for both `PdfRect` and `CssRect`. -/
@[ext]
structure Rect where
  x : ℚ
  y : ℚ
  w : ℚ
  h : ℚ
  deriving Repr, DecidableEq

/-- A 2-D point, as used by `rotatePoint` / `getRectangleCorners`. -/
structure Pt where
  x : ℚ
  y : ℚ
  deriving Repr, DecidableEq

/-- Cosine of an angle given in degrees, for the right angles the viewer
supports (`viewport.rotation ∈ {0, 90, 180, 270}` and their negations,
which `cssToPdf` feeds to `rotatePoint`).  The source computes
`Math.cos(angleDegrees * Math.PI / 180)`; at right angles the real cosine
is exactly 0, 1 or -1. -/
def cosDeg (d : Int) : ℚ :=
  if d % 360 = 0 then 1
  else if d % 360 = 90 then 0
  else if d % 360 = 180 then -1
  else if d % 360 = 270 then 0
  else 0

/-- Sine of an angle given in degrees, for right angles (see `cosDeg`). -/
def sinDeg (d : Int) : ℚ :=
  if d % 360 = 0 then 0
  else if d % 360 = 90 then 1
  else if d % 360 = 180 then 0
  else if d % 360 = 270 then -1
  else 0

/-- Models `rotatePoint(point, angleDegrees, centerX, centerY)`: translate to the
center, apply the rotation matrix, translate back. -/
def rotatePoint (p : Pt) (angleDegrees : Int) (centerX centerY : ℚ) : Pt :=
  let c := cosDeg angleDegrees
  let s := sinDeg angleDegrees
  let relX := p.x - centerX
  let relY := p.y - centerY
  ⟨relX * c - relY * s + centerX, relX * s + relY * c + centerY⟩

/-- Models `getRectangleCorners(rect)`: bottom-left, bottom-right, top-right,
top-left. -/
def getRectangleCorners (r : Rect) : List Pt :=
  [⟨r.x, r.y⟩, ⟨r.x + r.w, r.y⟩, ⟨r.x + r.w, r.y + r.h⟩, ⟨r.x, r.y + r.h⟩]

/-- Models `Math.min(...)` over a list of rationals (the call sites always pass the
four corner coordinates, so the list is never empty). -/
def qMin : List ℚ → ℚ
  | [] => 0
  | [a] => a
  | a :: rest => min a (qMin rest)

/-- Models `Math.max(...)` over a list of rationals (see `qMin`). -/
def qMax : List ℚ → ℚ
  | [] => 0
  | [a] => a
  | a :: rest => max a (qMax rest)

/-- Models `pdfToCss(bboxPdf, viewport)`: convert PDF user units to CSS pixels with
Y-axis inversion and rotation.  Rotation 0 is the direct formula; otherwise
the four corners are rotated about the page center (in PDF units) and the
bounding box of the rotated corners is converted to CSS. -/
def pdfToCss (bboxPdf : Rect) (viewport : Viewport) : Rect :=
  if viewport.rotation = 0 then
    { x := bboxPdf.x * viewport.scale
      y := viewport.height - (bboxPdf.y * viewport.scale + bboxPdf.h * viewport.scale)
      w := bboxPdf.w * viewport.scale
      h := bboxPdf.h * viewport.scale }
  else
    let corners := getRectangleCorners bboxPdf
    let rotatedCorners := corners.map (fun corner =>
      rotatePoint corner viewport.rotation
        (viewport.width / (2 * viewport.scale)) (viewport.height / (2 * viewport.scale)))
    let minX := qMin (rotatedCorners.map Pt.x)
    let maxX := qMax (rotatedCorners.map Pt.x)
    let minY := qMin (rotatedCorners.map Pt.y)
    let maxY := qMax (rotatedCorners.map Pt.y)
    { x := minX * viewport.scale
      y := viewport.height - maxY * viewport.scale
      w := (maxX - minX) * viewport.scale
      h := (maxY - minY) * viewport.scale }

/-- Models `cssToPdf(cssRect, viewport)`: convert CSS pixels back to PDF user
units.  Rotation 0 is the direct inverse; otherwise the CSS rect is first
converted to PDF space with Y-inversion and then the corners are rotated by
the negated angle. -/
def cssToPdf (cssRect : Rect) (viewport : Viewport) : Rect :=
  if viewport.rotation = 0 then
    { x := cssRect.x / viewport.scale
      y := (viewport.height - (cssRect.y + cssRect.h)) / viewport.scale
      w := cssRect.w / viewport.scale
      h := cssRect.h / viewport.scale }
  else
    let pdfLeft := cssRect.x / viewport.scale
    let pdfTop := (viewport.height - cssRect.y) / viewport.scale
    let pdfWidth := cssRect.w / viewport.scale
    let pdfHeight := cssRect.h / viewport.scale
    let pdfRect : Rect := ⟨pdfLeft, pdfTop - pdfHeight, pdfWidth, pdfHeight⟩
    let corners := getRectangleCorners pdfRect
    let rotatedCorners := corners.map (fun corner =>
      rotatePoint corner (-viewport.rotation)
        (viewport.width / (2 * viewport.scale)) (viewport.height / (2 * viewport.scale)))
    let minX := qMin (rotatedCorners.map Pt.x)
    let maxX := qMax (rotatedCorners.map Pt.x)
    let minY := qMin (rotatedCorners.map Pt.y)
    let maxY := qMax (rotatedCorners.map Pt.y)
    { x := minX, y := minY, w := maxX - minX, h := maxY - minY }

/-! ## Tokenizer (`src/modules/tokenizer/tokenizer.ts`)

JS strings are modelled as `List Char`.  The JS whitespace class `\s` (and
`String.prototype.trim`) is modelled on the ASCII whitespace characters,
which cover every input the properties below exercise. -/

/-- Whether a character is whitespace (`\s` / `trim`-able). -/
def isWs (c : Char) : Bool :=
  c == ' ' || c == '\t' || c == '\n' || c == '\r' || c == '\x0b' || c == '\x0c'

/-- Models `String.prototype.trim`: drop leading and trailing whitespace. -/
def jsTrim (s : List Char) : List Char :=
  ((s.dropWhile isWs).reverse.dropWhile isWs).reverse

/-- A token: its text together with `[startIndex, endIndex)` character
offsets into the tokenized string. -/
structure Token where
  text : List Char
  startIndex : Nat
  endIndex : Nat
  deriving Repr, DecidableEq

/-- The scanning loop of `tokenize`: the regex `/(\S+|\s+)/g` matched
against the remaining input takes, at each position, the maximal run of
characters in the same whitespace class as the first remaining character. -/
def tokenizeGo (i : Nat) : List Char → List Token
  | [] => []
  | c :: rest =>
    let run := c :: rest.takeWhile (fun d => isWs d == isWs c)
    let rest2 := rest.dropWhile (fun d => isWs d == isWs c)
    ⟨run, i, i + run.length⟩ :: tokenizeGo (i + run.length) rest2
termination_by l => l.length
decreasing_by
  simpa using Nat.lt_succ_of_le ((List.dropWhile_sublist _).length_le)

/-- Models `tokenize(text)`: split into maximal whitespace / non-whitespace runs,
recording character offsets. -/
def tokenize (text : List Char) : List Token :=
  tokenizeGo 0 text

/-- Models `normalizeText(text)`: `text.normalize('NFKC').toLowerCase().trim()`.
The Unicode-normalize-and-lowercase step is modelled by a character-wise
map `nf : Char → List Char` (one JS character may normalize to several,
e.g. a ligature); the instantiations used below are identity-like maps on
which this is exact. -/
def normalizeText (nf : Char → List Char) (text : List Char) : List Char :=
  jsTrim (text.flatMap nf)

/-! ## Matcher (`src/modules/matcher/matcher.ts`) -/

/-- A match span: `[startIndex, endIndex)` character offsets into the
original (un-normalized) text, plus the query's term id. -/
structure MatchSpan where
  startIndex : Nat
  endIndex : Nat
  termId : String
  deriving Repr, DecidableEq

/-- Models `ToInt32`: wrap an integer to the signed 32-bit range, as JS bitwise
operations do. -/
def toInt32 (n : Int) : Int :=
  (n + 2 ^ 31) % 2 ^ 32 - 2 ^ 31

/-- The hash loop of `generateTermId`:
`hash = ((hash << 5) - hash) + charCode; hash = hash & hash`. -/
def generateTermIdHash : List Char → Int → Int
  | [], h => h
  | c :: rest, h => generateTermIdHash rest (toInt32 (toInt32 (h * 32) - h + c.toNat))

/-- Models `generateTermId(query)`: `term_` followed by the absolute value of the
32-bit string hash. -/
def generateTermId (query : List Char) : String :=
  "term_" ++ toString (generateTermIdHash query 0).natAbs

/-- Whether `needle` occurs in `hay` at position `i`. -/
def occursAt (hay needle : List Char) (i : Nat) : Bool :=
  decide ((hay.drop i).take needle.length = needle)

/-- Models `String.prototype.indexOf(needle, start)`: the least position
`≥ start` at which `needle` occurs, `none` for JS's `-1`.  (The call site
in `findMatches` always passes `start < hay.length`.) -/
def jsIndexOf (hay needle : List Char) (start : Nat) : Option Nat :=
  (List.range' 0 (hay.length + 1)).find? (fun i => decide (start ≤ i) && occursAt hay needle i)

/-- The index-walking loop of `findOriginalIndex`: advance through the
original text while `normalizedCount < normalizedIndex`, adding each
original character's normalized length.  Here `ni` carries the remaining
count `normalizedIndex - normalizedCount` (truncated at zero), so the
loop guard `normalizedCount < normalizedIndex` becomes `0 < ni`. -/
def foiGo (nf : Char → List Char) : List Char → Nat → Nat → Nat
  | [], originalIndex, _ => originalIndex
  | c :: rest, originalIndex, ni =>
    if 0 < ni then foiGo nf rest (originalIndex + 1) (ni - (nf c).length)
    else originalIndex

/-- Models `findOriginalIndex(originalText, normalizedText, normalizedIndex)`:
identity when normalization preserved the length, otherwise the walking
loop.  The source returns a number that is never `-1`, so the result is a
`Nat` (the caller's `!== -1` guards always pass). -/
def findOriginalIndex (nf : Char → List Char) (orig norm : List Char) (ni : Nat) : Nat :=
  if orig.length = norm.length then ni else foiGo nf orig 0 ni

/-- The search loop of `findMatches`: repeatedly `indexOf` the normalized
query in the normalized text, map the hit back to original-text indices,
and continue one character after the hit. -/
def findMatchesGo (nf : Char → List Char) (fullText nText nQuery : List Char) (tid : String)
    (searchIndex : Nat) : List MatchSpan :=
  if _h : searchIndex < nText.length then
    match heq : jsIndexOf nText nQuery searchIndex with
    | none => []
    | some matchIndex =>
      let startIndex := findOriginalIndex nf fullText nText matchIndex
      let endIndex := findOriginalIndex nf fullText nText (matchIndex + nQuery.length)
      ⟨startIndex, endIndex, tid⟩ :: findMatchesGo nf fullText nText nQuery tid (matchIndex + 1)
  else []
termination_by nText.length - searchIndex
decreasing_by
  have hp := List.find?_some heq
  simp only [Bool.and_eq_true, decide_eq_true_eq] at hp
  omega

/-- Models `findMatches(tokens, query)`: all (overlapping) occurrences of the
normalized query in the normalized reconstructed text, as original-text
spans. -/
def findMatches (nf : Char → List Char) (tokens : List Token) (query : List Char) :
    List MatchSpan :=
  if jsTrim query = [] ∨ tokens.length = 0 then []
  else
    let normalizedQuery := normalizeText nf query
    let tid := generateTermId query
    let fullText := (tokens.map Token.text).flatten
    let normalizedFullText := normalizeText nf fullText
    findMatchesGo nf fullText normalizedFullText normalizedQuery tid 0

/-! ## Store (`src/modules/store/store.ts`)

`matchRectsByPage : Record<number, MatchRect[]>` is modelled as an
association list from page numbers to rect lists.  A JS object enumerates
integer-like keys in ascending numeric order, so insertion keeps the list
ordered by page; the accessors that the source additionally sorts
(`getAllMatchRects`, `getPageMatches`) sort explicitly here too. -/

/-- A stored match: page, term id, global order, PDF-space bbox, and the
id of the source text DIV (if any). -/
structure MatchRect where
  page : Nat
  termId : String
  order : Nat
  bboxPdf : Rect
  sourceDivId : Option String
  deriving Repr, DecidableEq

/-- The store's state. -/
structure StoreState where
  matchRectsByPage : List (Nat × List MatchRect)
  activeIndex : Int
  totalMatches : Nat
  currentQuery : List Char
  deriving Repr, DecidableEq

/-- The store's initial state. -/
def initialStore : StoreState :=
  { matchRectsByPage := [], activeIndex := -1, totalMatches := 0, currentQuery := [] }

/-- Models `this.state.matchRectsByPage[page] = rects`: insert or replace,
keeping pages in ascending order (JS integer-key enumeration order). -/
def pagesSet (m : List (Nat × List MatchRect)) (page : Nat) (rects : List MatchRect) :
    List (Nat × List MatchRect) :=
  match m with
  | [] => [(page, rects)]
  | (p, r) :: rest =>
    if page < p then (page, rects) :: (p, r) :: rest
    else if page = p then (page, rects) :: rest
    else (p, r) :: pagesSet rest page rects

/-- Models `delete this.state.matchRectsByPage[page]`. -/
def pagesDelete (m : List (Nat × List MatchRect)) (page : Nat) :
    List (Nat × List MatchRect) :=
  m.filter (fun e => e.1 != page)

/-- Models `Object.keys(...).map(Number).sort((a,b) => a-b)` applied to the
entries: sort by page number. -/
def pagesSorted (m : List (Nat × List MatchRect)) : List (Nat × List MatchRect) :=
  List.insertionSort (fun a b => a.1 ≤ b.1) m

/-- Models `updateTotalMatches`: total match count as the sum of all pages' rect
list lengths. -/
def totalOf (m : List (Nat × List MatchRect)) : Nat :=
  (m.map (fun e => e.2.length)).sum

/-- Models `setMatchRects(page, rects)`: replace the page's list wholesale and
recompute the total. -/
def setMatchRects (s : StoreState) (page : Nat) (rects : List MatchRect) : StoreState :=
  let m := pagesSet s.matchRectsByPage page rects
  { s with matchRectsByPage := m, totalMatches := totalOf m }

/-- Models `getMatchRects(page)`: the page's list, or `[]`. -/
def getMatchRects (s : StoreState) (page : Nat) : List MatchRect :=
  match s.matchRectsByPage.find? (fun e => e.1 == page) with
  | some e => e.2
  | none => []

/-- Models `getAllMatchRects()`: all rects, pages in ascending order. -/
def getAllMatchRects (s : StoreState) : List MatchRect :=
  (pagesSorted s.matchRectsByPage).flatMap (fun e => e.2)

/-- Models `setActiveIndex(index)`: `-1` when there are no matches, otherwise
clamp into `[0, totalMatches - 1]`. -/
def setActiveIndex (s : StoreState) (index : Int) : StoreState :=
  if s.totalMatches = 0 then { s with activeIndex := -1 }
  else { s with activeIndex := max 0 (min index ((s.totalMatches : Int) - 1)) }

/-- Models `getActiveMatch()`: the rect at the active index, if valid. -/
def getActiveMatch (s : StoreState) : Option MatchRect :=
  let allRects := getAllMatchRects s
  if 0 ≤ s.activeIndex ∧ s.activeIndex < (allRects.length : Int) then
    allRects[s.activeIndex.toNat]?
  else none

/-- Models `nextMatch()`: advance with wraparound; from the unset index go to 0;
no-op when there are no matches. -/
def nextMatch (s : StoreState) : StoreState :=
  if s.totalMatches = 0 then s
  else
    let currentIndex := s.activeIndex
    let nextIndex : Int := if currentIndex < 0 then 0 else (currentIndex + 1) % (s.totalMatches : Int)
    setActiveIndex s nextIndex

/-- Models `prevMatch()`: retreat with wraparound; from the unset index go to the
last match; no-op when there are no matches. -/
def prevMatch (s : StoreState) : StoreState :=
  if s.totalMatches = 0 then s
  else
    let currentIndex := s.activeIndex
    let prevIndex : Int :=
      if currentIndex < 0 then (s.totalMatches : Int) - 1
      else (currentIndex - 1 + (s.totalMatches : Int)) % (s.totalMatches : Int)
    setActiveIndex s prevIndex

/-- An entry of `getPageMatches`. -/
structure PageMatch where
  rect : MatchRect
  localIndex : Nat
  globalIndex : Nat
  deriving Repr, DecidableEq

/-- The page scan of `getPageMatches`: accumulate the global index over
pages before the target, then emit the target page's rects. -/
def getPageMatchesGo (page : Nat) : List (Nat × List MatchRect) → Nat → List PageMatch
  | [], _ => []
  | (p, rects) :: rest, g =>
    if p = page then rects.mapIdx (fun i r => ⟨r, i, g + i⟩)
    else getPageMatchesGo page rest (g + rects.length)

/-- Models `getPageMatches(page)`: the page's rects with local and global
indices. -/
def getPageMatches (s : StoreState) (page : Nat) : List PageMatch :=
  getPageMatchesGo page (pagesSorted s.matchRectsByPage) 0

/-- Models `clearAllMatches()`. -/
def clearAllMatches (s : StoreState) : StoreState :=
  { s with matchRectsByPage := [], activeIndex := -1, totalMatches := 0 }

/-- Models `clearPageMatches(page)`: drop the page, recompute the total, and
reset the active index to `-1` if it is no longer valid. -/
def clearPageMatches (s : StoreState) (page : Nat) : StoreState :=
  let m := pagesDelete s.matchRectsByPage page
  let total := totalOf m
  { s with
    matchRectsByPage := m
    totalMatches := total
    activeIndex := if s.activeIndex ≥ (total : Int) then -1 else s.activeIndex }

/-- Models `setQuery(query)`: record the query and clear all matches, but only
when the query actually changed. -/
def setQuery (s : StoreState) (query : List Char) : StoreState :=
  if s.currentQuery ≠ query then clearAllMatches { s with currentQuery := query }
  else s

/-! ## Controller (`src/modules/controller/controller.ts`) and renderer
(`src/modules/renderer/renderer.ts`)

DOM side effects are modelled as returned data: painting returns the list
of highlight boxes, and each run returns the trace of pipeline stages it
invoked (`Event`s), so that "does not re-run tokenize/match/measure" is a
statement about the trace. -/

/-- A pipeline stage invocation. -/
inductive Event where
  | tokenizeEv : Event
  | matchEv : Event
  | measureEv : Event
  | paintEv : Nat → Event
  deriving Repr, DecidableEq

/-- A painted highlight: its CSS box and whether it is the active one. -/
structure Highlight where
  cssRect : Rect
  isActive : Bool
  deriving Repr, DecidableEq

/-- Models `paintHighlights(page, viewport, rects, layer, activeIndex)`: project
each stored PDF rect through `pdfToCss` at the current viewport and build
one highlight box per rect. -/
def paintHighlights (viewport : Viewport) (rects : List MatchRect) (activeIndex : Int) :
    List Highlight :=
  rects.mapIdx (fun index matchRect =>
    ⟨pdfToCss matchRect.bboxPdf viewport, (index : Int) == activeIndex⟩)

/-- Models `renderPageHighlights(page, viewport, layer)`: read the page's stored
rects and the active match from the store, then paint. -/
def renderPageHighlights (s : StoreState) (page : Nat) (viewport : Viewport) :
    List Highlight × List Event :=
  let matchRects := getMatchRects s page
  let activeIndex : Int :=
    match getActiveMatch s with
    | some activeMatch =>
      if activeMatch.page = page then
        match (getPageMatches s page).findIdx? (fun m => m.rect.order == activeMatch.order) with
        | some i => (i : Int)
        | none => -1
      else -1
    | none => -1
  (paintHighlights viewport matchRects activeIndex, [Event.paintEv page])

/-- One iteration of `handleViewportChange`'s `visiblePages.forEach`:
look up the page's stored rects in the (threaded) store and re-render when
there are any. -/
def hvcStep (viewport : Viewport) (acc : StoreState × List (Nat × List Highlight) × List Event)
    (page : Nat) : StoreState × List (Nat × List Highlight) × List Event :=
  let matchRects := getMatchRects acc.1 page
  if matchRects.length > 0 then
    let r := renderPageHighlights acc.1 page viewport
    (acc.1, acc.2.1 ++ [(page, r.1)], acc.2.2 ++ r.2)
  else acc

/-- Models `handleViewportChange(viewport, visiblePages)`: for each visible page
that has stored rects, re-render from the store; the store is only read,
never written, so the state is threaded through unchanged. -/
def handleViewportChange (s : StoreState) (viewport : Viewport) (visiblePages : List Nat) :
    StoreState × List (Nat × List Highlight) × List Event :=
  visiblePages.foldl (hvcStep viewport) (s, [], [])

/-- Models `PageProcessingState`. -/
structure PageProcessingState where
  isProcessing : Bool
  isProcessed : Bool
  lastQuery : List Char
  deriving Repr, DecidableEq

/-- The controller's state: the match store, the per-page processing map,
and the global match-order counter. -/
structure ControllerState where
  store : StoreState
  pageStates : List (Nat × PageProcessingState)
  globalMatchOrder : Nat
  deriving Repr, DecidableEq

/-- The controller's initial state. -/
def initialController : ControllerState :=
  { store := initialStore, pageStates := [], globalMatchOrder := 0 }

/-- Models `getPageState(page)` with its default. -/
def getPageState (c : ControllerState) (page : Nat) : PageProcessingState :=
  match c.pageStates.find? (fun e => e.1 == page) with
  | some e => e.2
  | none => ⟨false, false, []⟩

/-- Models `setPageState(page, state)` (`Map.set`). -/
def setPageState (c : ControllerState) (page : Nat) (st : PageProcessingState) :
    ControllerState :=
  { c with pageStates := (page, st) :: c.pageStates.filter (fun e => e.1 != page) }

/-- Models `clearPageResults(page)`: clear the page in the store and reset its
processing state. -/
def clearPageResults (c : ControllerState) (page : Nat) : ControllerState :=
  setPageState { c with store := clearPageMatches c.store page } page ⟨false, false, []⟩

/-- Models `startNewSearch(query)`: `setQuery`, reset the global order counter,
clear all page processing states. -/
def startNewSearch (c : ControllerState) (query : List Char) : ControllerState :=
  { store := setQuery c.store query, globalMatchOrder := 0, pageStates := [] }

/-- The `catch` handler of `processPageSearch`: `clearPageResults`
followed by marking the page not processing, not processed, empty
last query. -/
def onCatch (c : ControllerState) (page : Nat) : ControllerState :=
  setPageState (clearPageResults c page) page ⟨false, false, []⟩

/-- Models `processPageSearch(page, query, textElement, viewport, layer)`.

The text content, and the three pipeline stages that can throw in the
browser — tokenize, match, and the DOM-measuring `measureSubstrings` —
are passed as `Except`-valued functions; a `.error` models a thrown
exception, which the source catches in one `try/catch` around the whole
pipeline.  Returns the new controller state and the trace of invoked
stages. -/
def processPageSearch
    (tok : List Char → Except String (List Token))
    (findM : List Token → List Char → Except String (List MatchSpan))
    (measure : List MatchSpan → Except String (List Rect))
    (c : ControllerState) (page : Nat) (query text : List Char)
    (srcId : Option String) (viewport : Viewport) : ControllerState × List Event :=
  if jsTrim query = [] then (clearPageResults c page, [])
  else if (getPageState c page).isProcessing then (c, [])
  else if (getPageState c page).isProcessed ∧ (getPageState c page).lastQuery = query then
    (c, [Event.paintEv page])
  else
    let c1 := setPageState c page ⟨true, false, query⟩
    match tok text with
    | .error _ => (onCatch c1 page, [Event.tokenizeEv])
    | .ok tokens =>
      if tokens.length = 0 then (clearPageResults c1 page, [Event.tokenizeEv])
      else
        match findM tokens query with
        | .error _ => (onCatch c1 page, [Event.tokenizeEv, Event.matchEv])
        | .ok matchSpans =>
          if matchSpans.length = 0 then
            (clearPageResults c1 page, [Event.tokenizeEv, Event.matchEv])
          else
            match measure matchSpans with
            | .error _ => (onCatch c1 page, [Event.tokenizeEv, Event.matchEv, Event.measureEv])
            | .ok cssRects =>
              if cssRects.length = 0 then
                (clearPageResults c1 page, [Event.tokenizeEv, Event.matchEv, Event.measureEv])
              else
                let matchRects := (matchSpans.zip cssRects).mapIdx (fun i z =>
                  { page := page
                    termId := z.1.termId
                    order := c1.globalMatchOrder + i
                    bboxPdf := cssToPdf z.2 viewport
                    sourceDivId := srcId })
                let c2 := { c1 with
                  store := setMatchRects c1.store page matchRects
                  globalMatchOrder :=
                    c1.globalMatchOrder + min matchSpans.length cssRects.length }
                let c3 := setPageState c2 page ⟨false, true, query⟩
                (c3, [Event.tokenizeEv, Event.matchEv, Event.measureEv, Event.paintEv page])

/-! ### Concrete fixtures used by witnesses and counterexamples -/

/-- A match rect on page `p` with order `o` (fixture). -/
def mkMR (p o : Nat) : MatchRect :=
  ⟨p, "t", o, ⟨0, 0, 1, 1⟩, none⟩

/-- Store fixture: 3 matches (orders 0,1,2) on page 1 and 2 matches
(orders 3,4) on page 2. -/
def storeC4 : StoreState :=
  setMatchRects (setMatchRects initialStore 1 [mkMR 1 0, mkMR 1 1, mkMR 1 2]) 2
    [mkMR 2 3, mkMR 2 4]

/-- Character normalization fixture: NFKC + `toLowerCase` act as the
identity on the ASCII inputs used below. -/
def nfId : Char → List Char := fun c => [c]

/-- Character normalization fixture: NFKC is the identity and
`toLowerCase` lowercases, exact for ASCII inputs. -/
def nfLower : Char → List Char := fun c => [c.toLower]

/-- Token-list fixture reconstructing the text `"ab ab"`. -/
def tokensW : List Token :=
  [⟨['a', 'b'], 0, 2⟩, ⟨[' '], 2, 3⟩, ⟨['a', 'b'], 3, 5⟩]

/-! ### Evaluation of the trigonometric helpers at the supported angles -/

lemma cosDeg_90 : cosDeg 90 = 0 := by decide

lemma sinDeg_90 : sinDeg 90 = 1 := by decide

lemma cosDeg_neg90 : cosDeg (-90) = 0 := by decide

lemma sinDeg_neg90 : sinDeg (-90) = -1 := by decide

lemma cosDeg_180 : cosDeg 180 = -1 := by decide

lemma sinDeg_180 : sinDeg 180 = 0 := by decide

lemma cosDeg_neg180 : cosDeg (-180) = -1 := by decide

lemma sinDeg_neg180 : sinDeg (-180) = 0 := by decide

lemma cosDeg_270 : cosDeg 270 = 0 := by decide

lemma sinDeg_270 : sinDeg 270 = -1 := by decide

lemma cosDeg_neg270 : cosDeg (-270) = 0 := by decide

lemma sinDeg_neg270 : sinDeg (-270) = 1 := by decide

/-! ### Solved forms of `pdfToCss` at each rotation, and the round trip -/

lemma pdfToCss_rot90 (x y w h W H s : ℚ) (hw : 0 ≤ w) (hh : 0 ≤ h) :
    pdfToCss ⟨x, y, w, h⟩ ⟨W, H, s, 90⟩ =
      ⟨(W/(2*s) + H/(2*s) - y - h) * s, H - (x + w - W/(2*s) + H/(2*s)) * s, h * s, w * s⟩ := by
  simp only [pdfToCss, getRectangleCorners, rotatePoint, cosDeg_90, sinDeg_90, List.map]
  norm_num [qMin, qMax]
  ring_nf
  refine ⟨Or.inl ?_, Or.inl hw, Or.inl ?_, Or.inl ?_⟩
  · rw [inf_eq_right]; linarith
  · rw [sup_eq_left.mpr (by linarith), inf_eq_right.mpr (by linarith)]; ring
  · rw [sup_eq_left.mpr (by linarith), inf_eq_right.mpr (by linarith)]; ring

lemma roundTrip_rot0 (x y w h W H s : ℚ) (hs : s ≠ 0) :
    cssToPdf (pdfToCss ⟨x, y, w, h⟩ ⟨W, H, s, 0⟩) ⟨W, H, s, 0⟩ = ⟨x, y, w, h⟩ := by
  simp only [pdfToCss, cssToPdf, if_pos rfl]
  refine Rect.ext ?_ ?_ ?_ ?_ <;> (field_simp; try ring)

lemma roundTrip_rot90 (x y w h W H s : ℚ) (hw : 0 ≤ w) (hh : 0 ≤ h) (hs : 0 < s) :
    cssToPdf (pdfToCss ⟨x, y, w, h⟩ ⟨W, H, s, 90⟩) ⟨W, H, s, 90⟩ = ⟨x, y, w, h⟩ := by
  have hs' : s ≠ 0 := ne_of_gt hs
  have e1 : ∀ a : ℚ, a * s / s = a := fun a => mul_div_cancel_right₀ a hs'
  rw [pdfToCss_rot90 x y w h W H s hw hh]
  simp only [cssToPdf, getRectangleCorners, rotatePoint, cosDeg_neg90, sinDeg_neg90, List.map,
    sub_sub_cancel, e1]
  norm_num [qMin, qMax]
  ring_nf
  refine ⟨inf_eq_left.mpr (by linarith), inf_eq_left.mpr (by linarith), ?_, ?_⟩ <;>
    rw [sup_eq_right.mpr (by linarith), inf_eq_left.mpr (by linarith)] <;> ring

lemma pdfToCss_rot180 (x y w h W H s : ℚ) (hw : 0 ≤ w) (hh : 0 ≤ h) :
    pdfToCss ⟨x, y, w, h⟩ ⟨W, H, s, 180⟩ =
      ⟨(W/s - x - w) * s, H - (H/s - y) * s, w * s, h * s⟩ := by
  simp only [pdfToCss, getRectangleCorners, rotatePoint, cosDeg_180, sinDeg_180, List.map]
  norm_num [qMin, qMax]
  ring_nf
  refine ⟨Or.inl (inf_eq_left.mpr (by linarith)), Or.inl (sup_eq_left.mpr (by linarith)),
    Or.inl ?_, Or.inl ?_⟩
  · rw [sup_eq_right.mpr (by linarith), inf_eq_left.mpr (by linarith)]; ring
  · rw [sup_eq_left.mpr (by linarith), inf_eq_right.mpr (by linarith)]; ring

lemma pdfToCss_rot270 (x y w h W H s : ℚ) (hw : 0 ≤ w) (hh : 0 ≤ h) :
    pdfToCss ⟨x, y, w, h⟩ ⟨W, H, s, 270⟩ =
      ⟨(y - H/(2*s) + W/(2*s)) * s, H - (W/(2*s) + H/(2*s) - x) * s, h * s, w * s⟩ := by
  simp only [pdfToCss, getRectangleCorners, rotatePoint, cosDeg_270, sinDeg_270, List.map]
  norm_num [qMin, qMax]
  ring_nf
  refine ⟨Or.inl hh, Or.inl (sup_eq_right.mpr (by linarith)), Or.inl ?_, Or.inl ?_⟩
  · rw [sup_eq_right.mpr (by linarith), inf_eq_left.mpr (by linarith)]; ring
  · rw [sup_eq_right.mpr (by linarith), inf_eq_left.mpr (by linarith)]; ring

lemma roundTrip_rot180 (x y w h W H s : ℚ) (hw : 0 ≤ w) (hh : 0 ≤ h) (hs : 0 < s) :
    cssToPdf (pdfToCss ⟨x, y, w, h⟩ ⟨W, H, s, 180⟩) ⟨W, H, s, 180⟩ = ⟨x, y, w, h⟩ := by
  have hs' : s ≠ 0 := ne_of_gt hs
  have e1 : ∀ a : ℚ, a * s / s = a := fun a => mul_div_cancel_right₀ a hs'
  rw [pdfToCss_rot180 x y w h W H s hw hh]
  simp only [cssToPdf, getRectangleCorners, rotatePoint, cosDeg_neg180, sinDeg_neg180, List.map,
    sub_sub_cancel, e1]
  norm_num [qMin, qMax]
  ring_nf
  refine ⟨inf_eq_left.mpr (by linarith), inf_eq_right.mpr (by linarith), ?_, ?_⟩
  · rw [sup_eq_right.mpr (by linarith), inf_eq_left.mpr (by linarith)]; ring
  · rw [sup_eq_left.mpr (by linarith), inf_eq_right.mpr (by linarith)]; ring

lemma roundTrip_rot270 (x y w h W H s : ℚ) (hw : 0 ≤ w) (hh : 0 ≤ h) (hs : 0 < s) :
    cssToPdf (pdfToCss ⟨x, y, w, h⟩ ⟨W, H, s, 270⟩) ⟨W, H, s, 270⟩ = ⟨x, y, w, h⟩ := by
  have hs' : s ≠ 0 := ne_of_gt hs
  have e1 : ∀ a : ℚ, a * s / s = a := fun a => mul_div_cancel_right₀ a hs'
  rw [pdfToCss_rot270 x y w h W H s hw hh]
  simp only [cssToPdf, getRectangleCorners, rotatePoint, cosDeg_neg270, sinDeg_neg270, List.map,
    sub_sub_cancel, e1]
  norm_num [qMin, qMax]
  ring_nf
  refine ⟨inf_eq_right.mpr (by linarith), by linarith, ?_, ?_⟩
  · rw [sup_eq_left.mpr (by linarith), inf_eq_right.mpr (by linarith)]; ring
  · rw [sup_eq_left.mpr (by linarith), inf_eq_right.mpr (by linarith)]; ring

/-- Round trip at every supported rotation, as an exact equality of rationals. -/
lemma roundTrip_exact (r : Rect) (vp : Viewport) (hs : 0 < vp.scale)
    (hrot : vp.rotation = 0 ∨ vp.rotation = 90 ∨ vp.rotation = 180 ∨ vp.rotation = 270)
    (hw : 0 ≤ r.w) (hh : 0 ≤ r.h) :
    cssToPdf (pdfToCss r vp) vp = r := by
  obtain ⟨x, y, w, h⟩ := r
  obtain ⟨W, H, s, rot⟩ := vp
  rcases hrot with h0 | h90 | h180 | h270
  · cases h0; exact roundTrip_rot0 x y w h W H s (ne_of_gt hs)
  · cases h90; exact roundTrip_rot90 x y w h W H s hw hh hs
  · cases h180; exact roundTrip_rot180 x y w h W H s hw hh hs
  · cases h270; exact roundTrip_rot270 x y w h W H s hw hh hs

end CAW

namespace CAW

/-- C1: for every document-space rectangle `r` (a rectangle proper:
non-negative width and height) and every viewport with scale in
`[0.25, 4.0]` and rotation in `{0, 90, 180, 270}`, the projection
round trip `cssToPdf (pdfToCss r vp) vp` agrees with `r` component-wise
within a tolerance of 0.5 units (in exact arithmetic it is in fact
exactly `r`). -/
theorem claim_c1_projector_roundTrip (r : Rect) (vp : Viewport)
    (hs₁ : 1/4 ≤ vp.scale) (hs₂ : vp.scale ≤ 4)
    (hrot : vp.rotation = 0 ∨ vp.rotation = 90 ∨ vp.rotation = 180 ∨ vp.rotation = 270)
    (hw : 0 ≤ r.w) (hh : 0 ≤ r.h) :
    |(cssToPdf (pdfToCss r vp) vp).x - r.x| ≤ 1/2 ∧
    |(cssToPdf (pdfToCss r vp) vp).y - r.y| ≤ 1/2 ∧
    |(cssToPdf (pdfToCss r vp) vp).w - r.w| ≤ 1/2 ∧
    |(cssToPdf (pdfToCss r vp) vp).h - r.h| ≤ 1/2 := by
  have hs : (0 : ℚ) < vp.scale := lt_of_lt_of_le (by norm_num) hs₁
  rw [roundTrip_exact r vp hs hrot hw hh]
  norm_num

/-- Witness for C1 at a concrete rectangle and a rotated, zoomed viewport. -/
theorem claim_c1_projector_roundTrip_witness :
    ((1:ℚ)/4 ≤ 2 ∧ (2:ℚ) ≤ 4 ∧ (0:ℚ) ≤ 30 ∧ (0:ℚ) ≤ 40) ∧
    (|(cssToPdf (pdfToCss ⟨10, 20, 30, 40⟩ ⟨600, 800, 2, 90⟩) ⟨600, 800, 2, 90⟩).x - 10| ≤ 1/2 ∧
     |(cssToPdf (pdfToCss ⟨10, 20, 30, 40⟩ ⟨600, 800, 2, 90⟩) ⟨600, 800, 2, 90⟩).y - 20| ≤ 1/2 ∧
     |(cssToPdf (pdfToCss ⟨10, 20, 30, 40⟩ ⟨600, 800, 2, 90⟩) ⟨600, 800, 2, 90⟩).w - 30| ≤ 1/2 ∧
     |(cssToPdf (pdfToCss ⟨10, 20, 30, 40⟩ ⟨600, 800, 2, 90⟩) ⟨600, 800, 2, 90⟩).h - 40| ≤ 1/2) :=
  ⟨by norm_num,
   claim_c1_projector_roundTrip ⟨10, 20, 30, 40⟩ ⟨600, 800, 2, 90⟩ (by norm_num) (by norm_num)
     (Or.inr (Or.inl rfl)) (by norm_num) (by norm_num)⟩

/-- C8: at rotation 0 the y-conversion of `pdfToCss` encodes the
document-to-screen y-axis inversion through `vp.height`:
`top = height - (y + h) * scale` always; a rect at document `y = 0`
(page bottom) lands at `top = height - h * scale`, and a rect at document
`y = height / scale - h` (page top) lands at `top = 0`. -/
theorem claim_c8_rot0_y_inversion (r : Rect) (W H s : ℚ) (hs : s ≠ 0) :
    (pdfToCss r ⟨W, H, s, 0⟩).y = H - (r.y + r.h) * s ∧
    (r.y = 0 → (pdfToCss r ⟨W, H, s, 0⟩).y = H - r.h * s) ∧
    (r.y = H / s - r.h → (pdfToCss r ⟨W, H, s, 0⟩).y = 0) := by
  obtain ⟨x, y, w, h⟩ := r
  have hb : pdfToCss ⟨x, y, w, h⟩ ⟨W, H, s, 0⟩ = ⟨x * s, H - (y * s + h * s), w * s, h * s⟩ := by
    simp [pdfToCss]
  rw [hb]
  refine ⟨by ring, ?_, ?_⟩
  · rintro rfl; ring
  · intro hy
    have hy' : y = H / s - h := hy
    subst hy'
    show H - ((H / s - h) * s + h * s) = 0
    field_simp
    ring

/-- Witness for C8 at a concrete page-bottom / page-top pair. -/
theorem claim_c8_rot0_y_inversion_witness :
    ((2:ℚ) ≠ 0) ∧
    ((pdfToCss ⟨10, 0, 30, 40⟩ ⟨600, 800, 2, 0⟩).y = 800 - (0 + 40) * 2 ∧
     ((0:ℚ) = 0 → (pdfToCss ⟨10, 0, 30, 40⟩ ⟨600, 800, 2, 0⟩).y = 800 - 40 * 2) ∧
     ((0:ℚ) = 800 / 2 - 40 → (pdfToCss ⟨10, 0, 30, 40⟩ ⟨600, 800, 2, 0⟩).y = 0)) :=
  ⟨by norm_num, claim_c8_rot0_y_inversion ⟨10, 0, 30, 40⟩ 600 800 2 (by norm_num)⟩

end CAW

namespace CAW

/-! ## Store lemmas and store claims -/

lemma find?_pagesSet_self (m : List (Nat × List MatchRect)) (page : Nat)
    (rects : List MatchRect) :
    (pagesSet m page rects).find? (fun e => e.1 == page) = some (page, rects) := by
  induction m with
  | nil => simp [pagesSet]
  | cons e rest ih =>
    obtain ⟨p, r⟩ := e
    rw [pagesSet]
    by_cases h1 : page < p
    · rw [if_pos h1]
      simp [List.find?]
    · rw [if_neg h1]
      by_cases h2 : page = p
      · rw [if_pos h2]
        simp [List.find?]
      · rw [if_neg h2]
        rw [List.find?_cons_of_neg _ (by simp; omega)]
        exact ih

lemma find?_pagesSet_other (m : List (Nat × List MatchRect)) (page p : Nat)
    (rects : List MatchRect) (hp : p ≠ page) :
    (pagesSet m page rects).find? (fun e => e.1 == p) = m.find? (fun e => e.1 == p) := by
  induction m with
  | nil =>
    rw [pagesSet, List.find?_cons_of_neg _ (by simp; omega)]
  | cons e rest ih =>
    obtain ⟨q, r⟩ := e
    rw [pagesSet]
    by_cases h1 : page < q
    · rw [if_pos h1]
      rw [List.find?_cons_of_neg _ (by simp; omega)]
    · rw [if_neg h1]
      by_cases h2 : page = q
      · subst h2
        rw [if_pos rfl]
        rw [List.find?_cons_of_neg _ (by simp; omega),
          List.find?_cons_of_neg _ (by simp; omega)]
      · rw [if_neg h2]
        by_cases h3 : q = p
        · subst h3
          rw [List.find?_cons_of_pos _ (by simp), List.find?_cons_of_pos _ (by simp)]
        · rw [List.find?_cons_of_neg _ (by simp; omega),
            List.find?_cons_of_neg _ (by simp; omega)]
          exact ih

/-- C10: `setActiveIndex` clamps rather than rejects: the new active index
is `-1` when there are no matches and `min (max i 0) (total - 1)`
otherwise, and afterwards the index is either `-1` or a valid position. -/
theorem claim_c10_setActiveIndex_clamps (s : StoreState) (i : Int) :
    (setActiveIndex s i).activeIndex =
      (if s.totalMatches = 0 then -1 else min (max i 0) ((s.totalMatches : Int) - 1)) ∧
    ((setActiveIndex s i).activeIndex = -1 ∨
      (0 ≤ (setActiveIndex s i).activeIndex ∧
        (setActiveIndex s i).activeIndex < ((setActiveIndex s i).totalMatches : Int))) := by
  by_cases h : s.totalMatches = 0
  · simp [setActiveIndex, h]
  · simp only [setActiveIndex, if_neg h]
    refine ⟨by omega, Or.inr ⟨by omega, by omega⟩⟩

/-- C4: navigation over the fixture (3 matches on page 1, 2 on page 2):
from the unset index, repeated `nextMatch` visits global orders
0, 1, 2, 3, 4 and wraps back to 0; `prevMatch` from unset selects order 4;
and on any state with zero total matches both are exact no-ops. -/
theorem claim_c4_navigation :
    (storeC4.activeIndex = -1 ∧ storeC4.totalMatches = 5 ∧
     (getAllMatchRects storeC4).map MatchRect.order = [0, 1, 2, 3, 4] ∧
     (nextMatch storeC4).activeIndex = 0 ∧
     (getActiveMatch (nextMatch storeC4)).map MatchRect.order = some 0 ∧
     (nextMatch (nextMatch storeC4)).activeIndex = 1 ∧
     (nextMatch (nextMatch (nextMatch storeC4))).activeIndex = 2 ∧
     (nextMatch (nextMatch (nextMatch (nextMatch storeC4)))).activeIndex = 3 ∧
     (nextMatch (nextMatch (nextMatch (nextMatch (nextMatch storeC4))))).activeIndex = 4 ∧
     (getActiveMatch
        (nextMatch (nextMatch (nextMatch (nextMatch (nextMatch storeC4)))))).map
          MatchRect.order = some 4 ∧
     (nextMatch
        (nextMatch (nextMatch (nextMatch (nextMatch (nextMatch storeC4)))))).activeIndex = 0 ∧
     (prevMatch storeC4).activeIndex = 4 ∧
     (getActiveMatch (prevMatch storeC4)).map MatchRect.order = some 4) ∧
    (∀ t : StoreState, t.totalMatches = 0 → nextMatch t = t ∧ prevMatch t = t) := by
  constructor
  · decide
  · intro t ht
    constructor
    · rw [nextMatch, if_pos ht]
    · rw [prevMatch, if_pos ht]

/-- Witness for the zero-total no-op part of C4, at the initial store. -/
theorem claim_c4_navigation_witness :
    initialStore.totalMatches = 0 ∧
    nextMatch initialStore = initialStore ∧ prevMatch initialStore = initialStore :=
  ⟨rfl, claim_c4_navigation.2 initialStore rfl⟩

end CAW

namespace CAW

/-- C7 fails on the code: shrinking a page's list through `setMatchRects`
leaves a stale active index.  After storing 3 matches on page 1, selecting
index 2, and replacing the page's list with `[]`, the total is 0 but the
active index is still 2 — not reset to `-1`, violating the claimed
invariant `activeIndex = -1 ∨ activeIndex < totalMatches`. -/
theorem claim_c7_counterexample :
    (setMatchRects (setActiveIndex (setMatchRects initialStore 1
        [mkMR 1 0, mkMR 1 1, mkMR 1 2]) 2) 1 []).activeIndex = 2 ∧
    (setMatchRects (setActiveIndex (setMatchRects initialStore 1
        [mkMR 1 0, mkMR 1 1, mkMR 1 2]) 2) 1 []).totalMatches = 0 := by
  decide

/-- C7 amended: `setMatchRects` replaces the page's list wholesale and
recomputes the total, but leaves the active index unchanged; it is
`clearPageMatches` (not `setMatchRects`) that resets a no-longer-valid
active index to `-1`. -/
theorem claim_c7_amended (s : StoreState) (page : Nat) (rects : List MatchRect) :
    getMatchRects (setMatchRects s page rects) page = rects ∧
    (∀ p, p ≠ page → getMatchRects (setMatchRects s page rects) p = getMatchRects s p) ∧
    (setMatchRects s page rects).totalMatches
      = ((setMatchRects s page rects).matchRectsByPage.map (fun e => e.2.length)).sum ∧
    (setMatchRects s page rects).activeIndex = s.activeIndex ∧
    (s.activeIndex ≥ ((clearPageMatches s page).totalMatches : Int) →
      (clearPageMatches s page).activeIndex = -1) := by
  refine ⟨?_, ?_, rfl, rfl, ?_⟩
  · rw [getMatchRects]
    rw [show (setMatchRects s page rects).matchRectsByPage
        = pagesSet s.matchRectsByPage page rects from rfl]
    rw [find?_pagesSet_self]
  · intro p hp
    rw [getMatchRects, getMatchRects]
    rw [show (setMatchRects s page rects).matchRectsByPage
        = pagesSet s.matchRectsByPage page rects from rfl]
    rw [find?_pagesSet_other _ _ _ _ hp]
  · intro hge
    rw [clearPageMatches] at hge ⊢
    simp only at hge ⊢
    rw [if_pos hge]

/-- Witness for C7 (amended) on the counterexample store: page 1 replaced
by the empty list, page 2 untouched, active index preserved, and
`clearPageMatches` resetting the stale index. -/
theorem claim_c7_amended_witness :
    getMatchRects (setMatchRects storeC4 1 []) 1 = [] ∧
    getMatchRects (setMatchRects storeC4 1 []) 2 = getMatchRects storeC4 2 ∧
    (setMatchRects storeC4 1 []).activeIndex = storeC4.activeIndex ∧
    (storeC4.activeIndex ≥ ((clearPageMatches storeC4 1).totalMatches : Int) →
      (clearPageMatches storeC4 1).activeIndex = -1) := by
  have h := claim_c7_amended storeC4 1 []
  exact ⟨h.1, h.2.1 2 (by decide), h.2.2.2.1, h.2.2.2.2⟩

/-- C5 fails on the code in its "resets only on a brand-new query" part:
`startNewSearch` resets the global order counter unconditionally, even
when the query it is given equals the one already stored.  Here the query
is `"x"` both before and after, yet the counter drops from 5 to 0. -/
theorem claim_c5_counterexample :
    (ControllerState.mk { initialStore with currentQuery := ['x'] } [] 5).store.currentQuery
        = ['x'] ∧
    (ControllerState.mk { initialStore with currentQuery := ['x'] } [] 5).globalMatchOrder
        = 5 ∧
    (startNewSearch (ControllerState.mk { initialStore with currentQuery := ['x'] } [] 5)
        ['x']).store.currentQuery = ['x'] ∧
    (startNewSearch (ControllerState.mk { initialStore with currentQuery := ['x'] } [] 5)
        ['x']).globalMatchOrder = 0 := by
  decide

/-- C5 amended: `setQuery` with the query already stored is a complete
no-op on the store (so calling it twice is indistinguishable from calling
it once, and stored matches are not cleared a second time); `setQuery`
itself never touches the order counter; and the counter is reset to zero
by every `startNewSearch` call, whether or not the query is brand-new. -/
theorem claim_c5_amended (s : StoreState) (q : List Char) (c : ControllerState) :
    setQuery (setQuery s q) q = setQuery s q ∧
    (s.currentQuery = q → setQuery s q = s) ∧
    (startNewSearch c q).globalMatchOrder = 0 := by
  have hsame : ∀ t : StoreState, t.currentQuery = q → setQuery t q = t := by
    intro t ht
    rw [setQuery, if_neg]
    simp [ht]
  refine ⟨?_, hsame s, rfl⟩
  by_cases h : s.currentQuery = q
  · rw [hsame s h]
    exact hsame s h
  · have h2 : (setQuery s q).currentQuery = q := by
      rw [setQuery, if_pos (by simpa using h)]
      rfl
    rw [hsame _ h2]

/-- Witness for C5 (amended): with query `"x"` already stored, `setQuery`
is a no-op and `startNewSearch` zeroes the counter. -/
theorem claim_c5_amended_witness :
    ({ initialStore with currentQuery := ['x'] } : StoreState).currentQuery = ['x'] ∧
    setQuery { initialStore with currentQuery := ['x'] } ['x']
      = { initialStore with currentQuery := ['x'] } ∧
    (startNewSearch initialController ['x']).globalMatchOrder = 0 := by
  have h := claim_c5_amended { initialStore with currentQuery := ['x'] } ['x'] initialController
  exact ⟨rfl, h.2.1 rfl, h.2.2⟩

end CAW

namespace CAW

/-! ## Renderer / viewport-change lemmas and claim C2 -/

lemma paintHighlights_cssRect (vp : Viewport) (rects : List MatchRect) (ai : Int) :
    (paintHighlights vp rects ai).map Highlight.cssRect
      = rects.map (fun r => pdfToCss r.bboxPdf vp) := by
  apply List.ext_getElem?
  intro i
  simp only [paintHighlights, List.getElem?_map, List.getElem?_mapIdx]
  cases rects[i]? <;> rfl

lemma hvcStep_store (vp : Viewport) (acc : StoreState × List (Nat × List Highlight) × List Event)
    (page : Nat) : (hvcStep vp acc page).1 = acc.1 := by
  rw [hvcStep]
  split <;> rfl

lemma hvc_foldl_store (vp : Viewport) :
    ∀ (pages : List Nat) (acc : StoreState × List (Nat × List Highlight) × List Event),
      (pages.foldl (hvcStep vp) acc).1 = acc.1 := by
  intro pages
  induction pages with
  | nil => intro acc; rfl
  | cons p rest ih =>
    intro acc
    rw [List.foldl_cons, ih, hvcStep_store]

lemma hvcStep_events (vp : Viewport) (acc : StoreState × List (Nat × List Highlight) × List Event)
    (page : Nat) (e : Event) (he : e ∈ (hvcStep vp acc page).2.2) :
    e ∈ acc.2.2 ∨ ∃ p, e = Event.paintEv p := by
  rw [hvcStep] at he
  split at he
  · simp only [renderPageHighlights, List.mem_append, List.mem_singleton] at he
    rcases he with h | h
    · exact Or.inl h
    · exact Or.inr ⟨page, h⟩
  · exact Or.inl he

lemma hvc_foldl_events (vp : Viewport) :
    ∀ (pages : List Nat) (acc : StoreState × List (Nat × List Highlight) × List Event)
      (e : Event), e ∈ (pages.foldl (hvcStep vp) acc).2.2 →
      e ∈ acc.2.2 ∨ ∃ p, e = Event.paintEv p := by
  intro pages
  induction pages with
  | nil => intro acc e he; exact Or.inl he
  | cons p rest ih =>
    intro acc e he
    rw [List.foldl_cons] at he
    rcases ih _ e he with h | h
    · exact hvcStep_events vp acc p e h
    · exact Or.inr h

lemma hvcStep_outputs (vp : Viewport) (s : StoreState)
    (acc : StoreState × List (Nat × List Highlight) × List Event) (page : Nat)
    (hst : acc.1 = s)
    (hout : ∀ p hl, (p, hl) ∈ acc.2.1 →
      hl.map Highlight.cssRect = (getMatchRects s p).map (fun r => pdfToCss r.bboxPdf vp)) :
    ∀ p hl, (p, hl) ∈ (hvcStep vp acc page).2.1 →
      hl.map Highlight.cssRect = (getMatchRects s p).map (fun r => pdfToCss r.bboxPdf vp) := by
  intro p hl hmem
  rw [hvcStep] at hmem
  split at hmem
  · simp only [List.mem_append, List.mem_singleton] at hmem
    rcases hmem with h | h
    · exact hout p hl h
    · injection h with h1 h2
      subst h1
      subst h2
      rw [renderPageHighlights]
      simp only []
      rw [paintHighlights_cssRect, hst]
  · exact hout p hl hmem

lemma hvc_foldl_outputs (vp : Viewport) (s : StoreState) :
    ∀ (pages : List Nat) (acc : StoreState × List (Nat × List Highlight) × List Event),
      acc.1 = s →
      (∀ p hl, (p, hl) ∈ acc.2.1 →
        hl.map Highlight.cssRect = (getMatchRects s p).map (fun r => pdfToCss r.bboxPdf vp)) →
      ∀ p hl, (p, hl) ∈ (pages.foldl (hvcStep vp) acc).2.1 →
        hl.map Highlight.cssRect = (getMatchRects s p).map (fun r => pdfToCss r.bboxPdf vp) := by
  intro pages
  induction pages with
  | nil => intro acc _ hout; exact hout
  | cons q rest ih =>
    intro acc hst hout
    rw [List.foldl_cons]
    exact ih _ (by rw [hvcStep_store]; exact hst) (hvcStep_outputs vp s acc q hst hout)

lemma hvc_foldl_outputs_mono (vp : Viewport) :
    ∀ (pages : List Nat) (acc : StoreState × List (Nat × List Highlight) × List Event)
      (x : Nat × List Highlight), x ∈ acc.2.1 → x ∈ (pages.foldl (hvcStep vp) acc).2.1 := by
  intro pages
  induction pages with
  | nil => intro acc x hx; exact hx
  | cons q rest ih =>
    intro acc x hx
    rw [List.foldl_cons]
    apply ih
    rw [hvcStep]
    split
    · exact List.mem_append_left _ hx
    · exact hx

lemma hvc_foldl_covers (vp : Viewport) (s : StoreState) :
    ∀ (pages : List Nat) (acc : StoreState × List (Nat × List Highlight) × List Event),
      acc.1 = s →
      ∀ p ∈ pages, getMatchRects s p ≠ [] →
        ∃ hl, (p, hl) ∈ (pages.foldl (hvcStep vp) acc).2.1 := by
  intro pages
  induction pages with
  | nil => intro acc _ p hp; cases hp
  | cons q rest ih =>
    intro acc hst p hp hne
    rw [List.foldl_cons]
    rcases List.mem_cons.mp hp with rfl | hp'
    · refine ⟨(renderPageHighlights acc.1 p vp).1, ?_⟩
      apply hvc_foldl_outputs_mono
      rw [hvcStep, if_pos]
      · exact List.mem_append_right _ (List.mem_singleton.mpr rfl)
      · rw [hst]
        simpa [List.length_pos] using hne
    · exact ih _ (by rw [hvcStep_store]; exact hst) p hp' hne

/-- C2: a viewport change leaves the store — and thus every stored
`MatchRect` — untouched, invokes no tokenize/match/measure stage, and the
painted output for every rendered page is exactly the stored PDF-space
rects projected through `pdfToCss` at the new viewport; every visible page
with stored rects gets such an output. -/
theorem claim_c2_viewport_change_reprojects (s : StoreState) (vp : Viewport)
    (pages : List Nat) :
    (handleViewportChange s vp pages).1 = s ∧
    Event.tokenizeEv ∉ (handleViewportChange s vp pages).2.2 ∧
    Event.matchEv ∉ (handleViewportChange s vp pages).2.2 ∧
    Event.measureEv ∉ (handleViewportChange s vp pages).2.2 ∧
    (∀ p hl, (p, hl) ∈ (handleViewportChange s vp pages).2.1 →
      hl.map Highlight.cssRect = (getMatchRects s p).map (fun r => pdfToCss r.bboxPdf vp)) ∧
    (∀ p ∈ pages, getMatchRects s p ≠ [] →
      ∃ hl, (p, hl) ∈ (handleViewportChange s vp pages).2.1) := by
  have hev : ∀ e : Event, e ∈ (handleViewportChange s vp pages).2.2 →
      ∃ p, e = Event.paintEv p := by
    intro e he
    rcases hvc_foldl_events vp pages (s, [], []) e he with h | h
    · cases h
    · exact h
  refine ⟨hvc_foldl_store vp pages _, ?_, ?_, ?_, ?_, ?_⟩
  · intro hmem
    rcases hev _ hmem with ⟨p, hp⟩
    cases hp
  · intro hmem
    rcases hev _ hmem with ⟨p, hp⟩
    cases hp
  · intro hmem
    rcases hev _ hmem with ⟨p, hp⟩
    cases hp
  · exact hvc_foldl_outputs vp s pages (s, [], []) rfl (by intro p hl h; cases h)
  · exact hvc_foldl_covers vp s pages (s, [], []) rfl

/-- Witness for C2 on the concrete fixture store and a zoomed viewport:
page 1 is re-rendered, its highlight boxes are the projections of the
stored rects, and the store is unchanged. -/
theorem claim_c2_viewport_change_reprojects_witness :
    (handleViewportChange storeC4 ⟨600, 800, 2, 0⟩ [1]).1 = storeC4 ∧
    Event.tokenizeEv ∉ (handleViewportChange storeC4 ⟨600, 800, 2, 0⟩ [1]).2.2 ∧
    (∃ hl, (1, hl) ∈ (handleViewportChange storeC4 ⟨600, 800, 2, 0⟩ [1]).2.1) := by
  have h := claim_c2_viewport_change_reprojects storeC4 ⟨600, 800, 2, 0⟩ [1]
  exact ⟨h.1, h.2.1, h.2.2.2.2.2 1 (List.mem_singleton.mpr rfl) (by decide)⟩

end CAW

namespace CAW

/-! ## Controller lemmas and claim C6 -/

lemma find?_filter_ne {α : Type} (m : List (Nat × α)) (page p : Nat) (hp : p ≠ page) :
    (m.filter (fun e => e.1 != page)).find? (fun e => e.1 == p)
      = m.find? (fun e => e.1 == p) := by
  induction m with
  | nil => rfl
  | cons e rest ih =>
    obtain ⟨q, a⟩ := e
    by_cases hq : q = page
    · subst hq
      rw [show List.filter (fun e => e.1 != q) ((q, a) :: rest)
          = List.filter (fun e => e.1 != q) rest from by simp [List.filter]]
      rw [ih, List.find?_cons_of_neg _ (by simp; omega)]
    · rw [show List.filter (fun e => e.1 != page) ((q, a) :: rest)
          = (q, a) :: List.filter (fun e => e.1 != page) rest from
            List.filter_cons_of_pos (by simp [hq])]
      by_cases hqp : q = p
      · subst hqp
        rw [List.find?_cons_of_pos _ (by simp), List.find?_cons_of_pos _ (by simp)]
      · rw [List.find?_cons_of_neg _ (by simp; omega), List.find?_cons_of_neg _ (by simp; omega)]
        exact ih

lemma getPageState_setPageState_self (c : ControllerState) (page : Nat)
    (st : PageProcessingState) : getPageState (setPageState c page st) page = st := by
  rw [getPageState, setPageState]
  simp only []
  rw [List.find?_cons_of_pos _ (by simp)]

lemma getPageState_setPageState_other (c : ControllerState) (page p : Nat)
    (st : PageProcessingState) (hp : p ≠ page) :
    getPageState (setPageState c page st) p = getPageState c p := by
  rw [getPageState, setPageState, getPageState]
  simp only []
  rw [List.find?_cons_of_neg _ (by simp; omega), find?_filter_ne _ _ _ hp]

lemma getMatchRects_clearPageMatches_self (s : StoreState) (page : Nat) :
    getMatchRects (clearPageMatches s page) page = [] := by
  rw [getMatchRects, clearPageMatches]
  simp only []
  rw [show (pagesDelete s.matchRectsByPage page).find? (fun e => e.1 == page) = none from ?_]
  · rw [List.find?_eq_none]
    intro e he
    have := List.of_mem_filter he
    simp at this ⊢
    omega

lemma getMatchRects_clearPageMatches_other (s : StoreState) (page p : Nat) (hp : p ≠ page) :
    getMatchRects (clearPageMatches s page) p = getMatchRects s p := by
  rw [getMatchRects, clearPageMatches, getMatchRects]
  simp only []
  rw [pagesDelete, find?_filter_ne _ _ _ hp]

lemma onCatch_spec (c : ControllerState) (page : Nat) :
    getMatchRects (onCatch c page).store page = [] ∧
    getPageState (onCatch c page) page = ⟨false, false, []⟩ ∧
    (∀ p, p ≠ page → getMatchRects (onCatch c page).store p = getMatchRects c.store p) ∧
    (∀ p, p ≠ page → getPageState (onCatch c page) p = getPageState c p) := by
  refine ⟨?_, ?_, ?_, ?_⟩
  · exact getMatchRects_clearPageMatches_self c.store page
  · exact getPageState_setPageState_self _ page _
  · intro p hp
    exact getMatchRects_clearPageMatches_other c.store page p hp
  · intro p hp
    rw [onCatch, getPageState_setPageState_other _ _ _ _ hp, clearPageResults,
      getPageState_setPageState_other _ _ _ _ hp]
    rfl

/-- C6 fails on the code in its "marked Processed" part: when measurement
throws, the catch handler resets the page's processing state to
`{isProcessing: false, isProcessed: false, lastQuery: ''}` — the page is
explicitly *not* marked processed (so it can be retried), although its
stored matches are indeed cleared to zero. -/
theorem claim_c6_counterexample :
    (processPageSearch (fun _ => .ok [⟨['a', 'b'], 0, 2⟩])
        (fun _ _ => .ok [⟨0, 1, "t"⟩])
        (fun _ => .error "DOM measurement failed")
        initialController 1 ['a'] ['a', 'b'] none ⟨600, 800, 2, 0⟩).1.pageStates
      = [(1, ⟨false, false, []⟩)] ∧
    (getPageState (processPageSearch (fun _ => .ok [⟨['a', 'b'], 0, 2⟩])
        (fun _ _ => .ok [⟨0, 1, "t"⟩])
        (fun _ => .error "DOM measurement failed")
        initialController 1 ['a'] ['a', 'b'] none ⟨600, 800, 2, 0⟩).1 1).isProcessed = false ∧
    getMatchRects (processPageSearch (fun _ => .ok [⟨['a', 'b'], 0, 2⟩])
        (fun _ _ => .ok [⟨0, 1, "t"⟩])
        (fun _ => .error "DOM measurement failed")
        initialController 1 ['a'] ['a', 'b'] none ⟨600, 800, 2, 0⟩).1.store 1 = [] := by
  decide

/-- C6 amended: an exception in any stage of the page pipeline is caught;
the page ends with an empty stored rect list (zero matches) and its
processing state reset to unprocessed (`{false, false, ''}`), while every
other page's stored rects and processing state are untouched and the call
returns normally. -/
theorem claim_c6_amended
    (tok : List Char → Except String (List Token))
    (findM : List Token → List Char → Except String (List MatchSpan))
    (measure : List MatchSpan → Except String (List Rect))
    (c : ControllerState) (page : Nat) (query text : List Char)
    (srcId : Option String) (vp : Viewport) (err : String)
    (hq : ¬ jsTrim query = [])
    (hproc : (getPageState c page).isProcessing = false)
    (hnew : ¬((getPageState c page).isProcessed = true ∧ (getPageState c page).lastQuery = query))
    (herr : tok text = .error err ∨
      (∃ tokens, tok text = .ok tokens ∧ tokens.length ≠ 0 ∧ findM tokens query = .error err) ∨
      (∃ tokens spans, tok text = .ok tokens ∧ tokens.length ≠ 0 ∧
        findM tokens query = .ok spans ∧ spans.length ≠ 0 ∧ measure spans = .error err)) :
    getMatchRects (processPageSearch tok findM measure c page query text srcId vp).1.store page
        = [] ∧
    getPageState (processPageSearch tok findM measure c page query text srcId vp).1 page
        = ⟨false, false, []⟩ ∧
    (∀ p, p ≠ page →
      getMatchRects (processPageSearch tok findM measure c page query text srcId vp).1.store p
        = getMatchRects c.store p) ∧
    (∀ p, p ≠ page →
      getPageState (processPageSearch tok findM measure c page query text srcId vp).1 p
        = getPageState c p) := by
  have hred : (processPageSearch tok findM measure c page query text srcId vp).1
      = onCatch (setPageState c page ⟨true, false, query⟩) page := by
    rw [processPageSearch, if_neg hq, if_neg (by simp [hproc]), if_neg (by simpa using hnew)]
    rcases herr with h1 | ⟨tokens, h1, h2, h3⟩ | ⟨tokens, spans, h1, h2, h3, h4, h5⟩
    · rw [h1]
    · rw [h1]
      simp only [if_neg h2]
      rw [h3]
    · rw [h1]
      simp only [if_neg h2]
      rw [h3]
      simp only [if_neg h4]
      rw [h5]
  rw [hred]
  obtain ⟨o1, o2, o3, o4⟩ := onCatch_spec (setPageState c page ⟨true, false, query⟩) page
  refine ⟨o1, o2, ?_, ?_⟩
  · intro p hp
    rw [o3 p hp]
    rfl
  · intro p hp
    rw [o4 p hp, getPageState_setPageState_other _ _ _ _ hp]

/-- Witness for C6 (amended) at a concrete erroring measurer. -/
theorem claim_c6_amended_witness :
    getMatchRects (processPageSearch (fun _ => .ok [⟨['a', 'b'], 0, 2⟩])
        (fun _ _ => .ok [⟨0, 1, "t"⟩])
        (fun _ => .error "boom")
        initialController 1 ['a'] ['a', 'b'] none ⟨600, 800, 2, 0⟩).1.store 1 = [] ∧
    getPageState (processPageSearch (fun _ => .ok [⟨['a', 'b'], 0, 2⟩])
        (fun _ _ => .ok [⟨0, 1, "t"⟩])
        (fun _ => .error "boom")
        initialController 1 ['a'] ['a', 'b'] none ⟨600, 800, 2, 0⟩).1 1
      = ⟨false, false, []⟩ ∧
    getMatchRects (processPageSearch (fun _ => .ok [⟨['a', 'b'], 0, 2⟩])
        (fun _ _ => .ok [⟨0, 1, "t"⟩])
        (fun _ => .error "boom")
        initialController 1 ['a'] ['a', 'b'] none ⟨600, 800, 2, 0⟩).1.store 2
      = getMatchRects initialController.store 2 := by
  have h := claim_c6_amended (fun _ => .ok [⟨['a', 'b'], 0, 2⟩])
    (fun _ _ => .ok [⟨0, 1, "t"⟩]) (fun _ => .error "boom")
    initialController 1 ['a'] ['a', 'b'] none ⟨600, 800, 2, 0⟩ "boom"
    (by decide) (by decide) (by decide)
    (Or.inr (Or.inr ⟨[⟨['a', 'b'], 0, 2⟩], [⟨0, 1, "t"⟩], rfl, by decide, rfl, by decide, rfl⟩))
  exact ⟨h.1, h.2.1, h.2.2.1 2 (by decide)⟩

end CAW

namespace CAW

/-! ## Tokenizer lemmas and claim C9 -/

lemma tokenizeGo_nil (i : Nat) : tokenizeGo i [] = [] := by
  rw [tokenizeGo]

lemma tokenizeGo_cons (i : Nat) (c : Char) (rest : List Char) :
    tokenizeGo i (c :: rest) =
      ⟨c :: rest.takeWhile (fun d => isWs d == isWs c), i,
        i + (c :: rest.takeWhile (fun d => isWs d == isWs c)).length⟩ ::
        tokenizeGo (i + (c :: rest.takeWhile (fun d => isWs d == isWs c)).length)
          (rest.dropWhile (fun d => isWs d == isWs c)) := by
  rw [tokenizeGo]

lemma tokG_flatten : ∀ (i : Nat) (s : List Char),
    ((tokenizeGo i s).map Token.text).flatten = s := by
  intro i s
  induction i, s using tokenizeGo.induct with
  | case1 i => rw [tokenizeGo_nil]; rfl
  | case2 i c rest run rest2 ih =>
    rw [tokenizeGo_cons]
    simp only [List.map_cons, List.flatten_cons]
    unfold_let run rest2 at ih
    simp only [List.length_cons] at ih ⊢
    rw [ih]
    simp [List.takeWhile_append_dropWhile]

lemma tokG_wf : ∀ (i : Nat) (s : List Char), ∀ t ∈ tokenizeGo i s,
    t.endIndex = t.startIndex + t.text.length ∧ t.text ≠ [] ∧
      ∀ c' ∈ t.text, isWs c' = isWs (t.text.headD ' ') := by
  intro i s
  induction i, s using tokenizeGo.induct with
  | case1 i => intro t ht; rw [tokenizeGo_nil] at ht; cases ht
  | case2 i c rest run rest2 ih =>
    intro t ht
    rw [tokenizeGo_cons] at ht
    rcases List.mem_cons.mp ht with rfl | ht'
    · refine ⟨rfl, by simp, ?_⟩
      intro c' hc'
      simp only [List.headD_cons]
      rcases List.mem_cons.mp hc' with rfl | hc''
      · rfl
      · simpa using List.mem_takeWhile_imp hc''
    · unfold_let run rest2 at ih
      simp only [List.length_cons] at ih
      exact ih t ht'

lemma tokG_start : ∀ (i : Nat) (s : List Char) (t : Token),
    (tokenizeGo i s).head? = some t → t.startIndex = i ∧ t.text.headD ' ' = s.headD ' ' := by
  intro i s t h
  cases s with
  | nil => rw [tokenizeGo_nil] at h; simp at h
  | cons c rest =>
    rw [tokenizeGo_cons] at h
    injection h with h
    subst h
    exact ⟨rfl, rfl⟩

lemma tokG_chain : ∀ (i : Nat) (s : List Char),
    (tokenizeGo i s).Chain' (fun a b => a.endIndex = b.startIndex ∧
      isWs (a.text.headD ' ') ≠ isWs (b.text.headD ' ')) := by
  intro i s
  induction i, s using tokenizeGo.induct with
  | case1 i => rw [tokenizeGo_nil]; exact List.chain'_nil
  | case2 i c rest run rest2 ih =>
    rw [tokenizeGo_cons]
    unfold_let run rest2 at ih
    simp only [List.length_cons] at ih
    refine List.chain'_cons'.mpr ⟨?_, ih⟩
    intro y hy
    cases hrest2 : rest.dropWhile (fun d => isWs d == isWs c) with
    | nil =>
      rw [hrest2, tokenizeGo_nil] at hy
      simp at hy
    | cons c2 rest3 =>
      rw [hrest2] at hy
      obtain ⟨hstart, hhead⟩ := tokG_start _ _ _ hy
      refine ⟨hstart.symm, ?_⟩
      rw [hhead]
      simp only [List.headD_cons]
      have hne : rest.dropWhile (fun d => isWs d == isWs c) ≠ [] := by
        rw [hrest2]; simp
      have hfalse := List.head_dropWhile_not (fun d => isWs d == isWs c) rest hne
      simp only [hrest2, List.head_cons] at hfalse
      simp only [beq_eq_false_iff_ne, ne_eq] at hfalse
      exact fun hcc => hfalse (hcc.symm)

/-- C9: `tokenize` partitions its input losslessly into maximal uniform
runs: concatenating token texts reproduces the input; the first token
starts at 0, each token's end is its start plus its length, and
consecutive tokens abut (so the tokens tile `[0, len)` with no gaps or
overlaps); every token is non-empty and single-class (all whitespace or
all non-whitespace); consecutive tokens alternate class (so each run is
maximal); and the empty input yields the empty token list. -/
theorem claim_c9_tokenize_partition (s : List Char) :
    ((tokenize s).map Token.text).flatten = s ∧
    (∀ t, (tokenize s).head? = some t → t.startIndex = 0) ∧
    (∀ t ∈ tokenize s, t.endIndex = t.startIndex + t.text.length ∧ t.text ≠ [] ∧
      ∀ c' ∈ t.text, isWs c' = isWs (t.text.headD ' ')) ∧
    (tokenize s).Chain' (fun a b => a.endIndex = b.startIndex ∧
      isWs (a.text.headD ' ') ≠ isWs (b.text.headD ' ')) ∧
    (tokenize s = [] ↔ s = []) := by
  refine ⟨tokG_flatten 0 s, ?_, tokG_wf 0 s, tokG_chain 0 s, ?_⟩
  · intro t ht
    exact (tokG_start 0 s t ht).1
  · constructor
    · intro h
      cases s with
      | nil => rfl
      | cons c rest =>
        rw [tokenize, tokenizeGo_cons] at h
        cases h
    · intro h
      subst h
      rw [tokenize, tokenizeGo_nil]

/-- Witness for C9 at the concrete input `"ab "`. -/
theorem claim_c9_tokenize_partition_witness :
    ((tokenize ['a', 'b', ' ']).map Token.text).flatten = ['a', 'b', ' '] ∧
    (Token.mk ['a', 'b'] 0 2).startIndex = 0 ∧
    (Token.mk ['a', 'b'] 0 2).text ≠ [] := by
  have hhead : (tokenize ['a', 'b', ' ']).head? = some ⟨['a', 'b'], 0, 2⟩ := by
    rw [tokenize, tokenizeGo_cons]
    rfl
  have hmem : (⟨['a', 'b'], 0, 2⟩ : Token) ∈ tokenize ['a', 'b', ' '] := by
    rw [tokenize, tokenizeGo_cons]
    exact List.mem_cons_self _ _
  exact ⟨(claim_c9_tokenize_partition ['a', 'b', ' ']).1,
    (claim_c9_tokenize_partition ['a', 'b', ' ']).2.1 ⟨['a', 'b'], 0, 2⟩ hhead,
    ((claim_c9_tokenize_partition ['a', 'b', ' ']).2.2.1 ⟨['a', 'b'], 0, 2⟩ hmem).2.1⟩

end CAW

namespace CAW

/-! ## Matcher lemmas and claim C3 -/

end CAW

namespace CAW

lemma dropWhile_eq_cons_head_false {p : Char → Bool} {l t : List Char} {c : Char}
    (h : l.dropWhile p = c :: t) : p c = false := by
  have hne : l.dropWhile p ≠ [] := by rw [h]; simp
  have := List.head_dropWhile_not p l hne
  simpa [h] using this

lemma jsTrim_getLast (X : List Char) (c : Char) (h : (jsTrim X).getLast? = some c) :
    isWs c = false := by
  rw [jsTrim] at h
  rw [List.getLast?_reverse] at h
  cases hD : (X.dropWhile isWs).reverse.dropWhile isWs with
  | nil => rw [hD] at h; cases h
  | cons d t =>
    rw [hD] at h
    simp only [List.head?_cons] at h
    injection h with h
    subst h
    exact dropWhile_eq_cons_head_false hD

lemma suffix_getLast? {l s : List Char} (hs : s <:+ l) (hne : s ≠ []) :
    s.getLast? = l.getLast? := by
  obtain ⟨pre, rfl⟩ := hs
  rw [List.getLast?_append]
  cases hsl : s.getLast? with
  | none => exact absurd (List.getLast?_eq_none_iff.mp hsl) hne
  | some d => rfl

lemma jsTrim_head (X : List Char) (c : Char) (h : (jsTrim X).head? = some c) :
    isWs c = false := by
  rw [jsTrim, List.head?_reverse] at h
  have hsuf : (X.dropWhile isWs).reverse.dropWhile isWs <:+ (X.dropWhile isWs).reverse :=
    List.dropWhile_suffix _
  have hne : (X.dropWhile isWs).reverse.dropWhile isWs ≠ [] := by
    intro hnil
    rw [hnil] at h
    cases h
  rw [suffix_getLast? hsuf hne, List.getLast?_reverse] at h
  cases hA : X.dropWhile isWs with
  | nil => rw [hA] at h; cases h
  | cons d t =>
    rw [hA] at h
    simp only [List.head?_cons] at h
    injection h with h
    subst h
    exact dropWhile_eq_cons_head_false hA

lemma jsTrim_noop (l : List Char)
    (hh : ∀ c, l.head? = some c → isWs c = false)
    (hl : ∀ c, l.getLast? = some c → isWs c = false) : jsTrim l = l := by
  have h1 : l.dropWhile isWs = l := by
    cases l with
    | nil => rfl
    | cons c t =>
      rw [List.dropWhile_cons, hh c rfl]
      simp
  rw [jsTrim, h1]
  have h2 : l.reverse.dropWhile isWs = l.reverse := by
    cases hr : l.reverse with
    | nil => simp
    | cons c t =>
      rw [List.dropWhile_cons]
      have hgl : l.getLast? = some c := by
        rw [← List.head?_reverse, hr, List.head?_cons]
      rw [hl c hgl]
      simp
  rw [h2, List.reverse_reverse]

lemma jsTrim_idem (X : List Char) : jsTrim (jsTrim X) = jsTrim X :=
  jsTrim_noop _ (jsTrim_head X) (jsTrim_getLast X)

lemma flatMap_eq_map_of_one (nf : Char → List Char) (l : List Char)
    (h : ∀ c ∈ l, (nf c).length = 1) :
    l.flatMap nf = l.map (fun c => (nf c).headD c) := by
  induction l with
  | nil => rfl
  | cons c t ih =>
    rw [List.flatMap_cons, List.map_cons]
    have hc := h c (List.mem_cons_self c t)
    cases hnf : nf c with
    | nil => rw [hnf] at hc; cases hc
    | cons d u =>
      have hu : u = [] := by
        rw [hnf] at hc
        simpa using hc
      subst hu
      rw [ih (fun e he => h e (List.mem_cons_of_mem c he))]
      rfl

lemma occursAt_bounds {hay needle : List Char} {i : Nat} (hocc : occursAt hay needle i = true)
    (hne : needle ≠ []) : i + needle.length ≤ hay.length := by
  rw [occursAt, decide_eq_true_eq] at hocc
  have hlen : ((hay.drop i).take needle.length).length = needle.length := by rw [hocc]
  rw [List.length_take, List.length_drop] at hlen
  have hpos : 0 < needle.length := List.length_pos.mpr hne
  omega

end CAW

namespace CAW

lemma find?_range'_some (p : Nat → Bool) :
    ∀ (n s m : Nat), (List.range' s n).find? p = some m →
      p m = true ∧ s ≤ m ∧ m < s + n ∧ ∀ j, s ≤ j → j < m → p j = false := by
  intro n
  induction n with
  | zero => intro s m h; cases h
  | succ k ih =>
    intro s m h
    rw [List.range'_succ] at h
    by_cases hps : p s
    · rw [List.find?_cons_of_pos _ hps] at h
      injection h with h
      subst h
      exact ⟨hps, Nat.le_refl _, by omega, fun j h1 h2 => absurd h1 (by omega)⟩
    · rw [List.find?_cons_of_neg _ hps] at h
      obtain ⟨hp, hle, hlt, hmin⟩ := ih (s + 1) m h
      refine ⟨hp, by omega, by omega, ?_⟩
      intro j h1 h2
      by_cases hj : j = s
      · subst hj
        exact Bool.eq_false_iff.mpr hps
      · exact hmin j (by omega) h2

lemma find?_range'_none (p : Nat → Bool) :
    ∀ (n s : Nat), (List.range' s n).find? p = none →
      ∀ j, s ≤ j → j < s + n → p j = false := by
  intro n
  induction n with
  | zero => intro s h j h1 h2; omega
  | succ k ih =>
    intro s h j h1 h2
    rw [List.range'_succ] at h
    by_cases hps : p s
    · rw [List.find?_cons_of_pos _ hps] at h
      cases h
    · rw [List.find?_cons_of_neg _ hps] at h
      by_cases hj : j = s
      · subst hj
        exact Bool.eq_false_iff.mpr hps
      · exact ih (s + 1) h j (by omega) (by omega)

lemma filter_range'_split (N si mi : Nat) (q : Nat → Bool) (hmi : mi < N) (hq : q mi = true)
    (hsi : si ≤ mi) (hmin : ∀ j, si ≤ j → j < mi → q j = false) :
    (List.range' 0 N).filter (fun i => decide (si ≤ i) && q i)
      = mi :: (List.range' 0 N).filter (fun i => decide (mi + 1 ≤ i) && q i) := by
  have hN : N = (N - (mi + 1)) + (mi + 1) := by omega
  rw [hN, ← List.range'_append_1 0 (mi + 1) (N - (mi + 1))]
  rw [List.filter_append, List.filter_append]
  have h1 : (List.range' 0 (mi + 1)).filter (fun i => decide (si ≤ i) && q i) = [mi] := by
    rw [List.range'_1_concat, List.filter_append]
    have h1a : (List.range' 0 mi).filter (fun i => decide (si ≤ i) && q i) = [] := by
      rw [List.filter_eq_nil_iff]
      intro a ha
      rw [List.mem_range'_1] at ha
      simp only [Bool.and_eq_true, decide_eq_true_eq, not_and]
      intro hsa
      rw [hmin a hsa (by omega)]
      simp
    rw [h1a]
    simp only [Nat.zero_add, List.nil_append, List.filter_cons, List.filter_nil]
    rw [show (decide (si ≤ mi) && q mi) = true from by simp [hsi, hq]]
    simp
  have h2 : (List.range' 0 (mi + 1)).filter (fun i => decide (mi + 1 ≤ i) && q i) = [] := by
    rw [List.filter_eq_nil_iff]
    intro a ha
    rw [List.mem_range'_1] at ha
    simp only [Bool.and_eq_true, decide_eq_true_eq, not_and]
    intro hma
    omega
  have h3 : (List.range' (0 + (mi + 1)) (N - (mi + 1))).filter
        (fun i => decide (si ≤ i) && q i)
      = (List.range' (0 + (mi + 1)) (N - (mi + 1))).filter
        (fun i => decide (mi + 1 ≤ i) && q i) := by
    apply List.filter_congr
    intro a ha
    rw [List.mem_range'_1] at ha
    have : si ≤ a := by omega
    have : mi + 1 ≤ a := by omega
    simp [*]
  rw [h1, h2, h3]
  simp

end CAW

namespace CAW

lemma findMatchesGo_stop (nf : Char → List Char) (ft nt nq : List Char) (tid : String)
    (si : Nat) (hsi : ¬ si < nt.length) : findMatchesGo nf ft nt nq tid si = [] := by
  rw [findMatchesGo, dif_neg hsi]

lemma findMatchesGo_none (nf : Char → List Char) (ft nt nq : List Char) (tid : String)
    (si : Nat) (h : jsIndexOf nt nq si = none) : findMatchesGo nf ft nt nq tid si = [] := by
  rw [findMatchesGo]
  by_cases hsi : si < nt.length
  · rw [dif_pos hsi]
    split
    · rfl
    · rename_i mi heqq
      rw [h] at heqq
      cases heqq
  · rw [dif_neg hsi]

lemma findMatchesGo_some (nf : Char → List Char) (ft nt nq : List Char) (tid : String)
    (si mi : Nat) (h : jsIndexOf nt nq si = some mi) (hsi : si < nt.length) :
    findMatchesGo nf ft nt nq tid si =
      ⟨findOriginalIndex nf ft nt mi, findOriginalIndex nf ft nt (mi + nq.length), tid⟩ ::
        findMatchesGo nf ft nt nq tid (mi + 1) := by
  rw [findMatchesGo, dif_pos hsi]
  split
  · rename_i heqq
    rw [h] at heqq
    cases heqq
  · rename_i mi2 heqq
    rw [h] at heqq
    injection heqq with hh
    subst hh
    rfl

end CAW

namespace CAW

lemma findMatchesGo_spec (nf : Char → List Char) (T T' Q' : List Char) (tid : String)
    (hlen : T.length = T'.length) (hQ : Q' ≠ []) :
    ∀ si, findMatchesGo nf T T' Q' tid si
      = ((List.range' 0 (T'.length + 1)).filter
          (fun i => decide (si ≤ i) && occursAt T' Q' i)).map
          (fun i => ⟨i, i + Q'.length, tid⟩) := by
  have hstop : ∀ si, ¬ si < T'.length →
      ((List.range' 0 (T'.length + 1)).filter
        (fun i => decide (si ≤ i) && occursAt T' Q' i)) = [] := by
    intro si hsi
    rw [List.filter_eq_nil_iff]
    intro a _
    simp only [Bool.and_eq_true, decide_eq_true_eq, not_and]
    intro hsa hocc
    have := occursAt_bounds hocc hQ
    have := List.length_pos.mpr hQ
    omega
  have main : ∀ k si, T'.length - si ≤ k → findMatchesGo nf T T' Q' tid si
      = ((List.range' 0 (T'.length + 1)).filter
          (fun i => decide (si ≤ i) && occursAt T' Q' i)).map
          (fun i => ⟨i, i + Q'.length, tid⟩) := by
    intro k
    induction k with
    | zero =>
      intro si hk
      have hsi : ¬ si < T'.length := by omega
      rw [findMatchesGo_stop _ _ _ _ _ _ hsi, hstop si hsi]
      rfl
    | succ k ih =>
      intro si hk
      by_cases hlt : si < T'.length
      · cases hio : jsIndexOf T' Q' si with
        | none =>
          rw [findMatchesGo_none _ _ _ _ _ _ hio]
          rw [jsIndexOf] at hio
          have hall := find?_range'_none _ _ _ hio
          rw [show ((List.range' 0 (T'.length + 1)).filter
              (fun i => decide (si ≤ i) && occursAt T' Q' i)) = [] from ?_]
          · rfl
          · rw [List.filter_eq_nil_iff]
            intro a ha
            rw [List.mem_range'_1] at ha
            have := hall a (by omega) (by omega)
            simp [this]
        | some mi =>
          rw [findMatchesGo_some _ _ _ _ _ _ mi hio hlt]
          rw [jsIndexOf] at hio
          obtain ⟨hp, _, hmlt, hmin⟩ := find?_range'_some _ _ _ _ hio
          simp only [Bool.and_eq_true, decide_eq_true_eq] at hp
          obtain ⟨hsimi, hocc⟩ := hp
          have hmin' : ∀ j, si ≤ j → j < mi → occursAt T' Q' j = false := by
            intro j h1 h2
            have := hmin j (by omega) h2
            simpa [h1] using this
          rw [filter_range'_split (T'.length + 1) si mi (occursAt T' Q')
            (by omega) hocc hsimi hmin']
          rw [List.map_cons]
          rw [findOriginalIndex, if_pos hlen, findOriginalIndex, if_pos hlen]
          rw [ih (mi + 1) (by omega)]
      · rw [findMatchesGo_stop _ _ _ _ _ _ hlt, hstop si hlt]
        rfl
  intro si
  exact main (T'.length - si) si (Nat.le_refl _)

end CAW

namespace CAW

theorem claim_c3_amended (nf : Char → List Char) (tokens : List Token) (query : List Char)
    (h1 : ∀ c ∈ (tokens.map Token.text).flatten, (nf c).length = 1)
    (h2 : jsTrim (((tokens.map Token.text).flatten).flatMap nf)
        = ((tokens.map Token.text).flatten).flatMap nf)
    (h3 : normalizeText nf query ≠ [])
    (h4 : jsTrim query ≠ []) :
    findMatches nf tokens query
      = ((List.range' 0
            ((normalizeText nf ((tokens.map Token.text).flatten)).length + 1)).filter
          (fun i => occursAt (normalizeText nf ((tokens.map Token.text).flatten))
            (normalizeText nf query) i)).map
          (fun i => ⟨i, i + (normalizeText nf query).length, generateTermId query⟩) ∧
    List.Chain' (fun a b => a.startIndex < b.startIndex) (findMatches nf tokens query) ∧
    (∀ sp ∈ findMatches nf tokens query,
      normalizeText nf ((((tokens.map Token.text).flatten).drop sp.startIndex).take
          (sp.endIndex - sp.startIndex))
        = normalizeText nf query) := by
  have hT' : normalizeText nf ((tokens.map Token.text).flatten)
      = ((tokens.map Token.text).flatten).flatMap nf := h2
  have hmap : ((tokens.map Token.text).flatten).flatMap nf
      = ((tokens.map Token.text).flatten).map (fun c => (nf c).headD c) :=
    flatMap_eq_map_of_one nf _ h1
  have hlen : ((tokens.map Token.text).flatten).length
      = (normalizeText nf ((tokens.map Token.text).flatten)).length := by
    rw [hT', hmap, List.length_map]
  have hQtrim : jsTrim (normalizeText nf query) = normalizeText nf query :=
    jsTrim_idem (query.flatMap nf)
  have hconj1 : findMatches nf tokens query
      = ((List.range' 0
            ((normalizeText nf ((tokens.map Token.text).flatten)).length + 1)).filter
          (fun i => occursAt (normalizeText nf ((tokens.map Token.text).flatten))
            (normalizeText nf query) i)).map
          (fun i => ⟨i, i + (normalizeText nf query).length, generateTermId query⟩) := by
    cases htk : tokens with
    | nil =>
      rw [findMatches, if_pos (by simp)]
      have hocc0 : ∀ i, occursAt (normalizeText nf ((([] : List Token).map Token.text).flatten))
          (normalizeText nf query) i = false := by
        intro i
        rw [occursAt, decide_eq_false_iff_not]
        intro hq
        apply h3
        rw [← hq]
        show ((([] : List Char).drop i).take (normalizeText nf query).length) = []
        simp
      have hfilter : ((List.range' 0
            ((normalizeText nf ((([] : List Token).map Token.text).flatten)).length + 1)).filter
          (fun i => occursAt (normalizeText nf ((([] : List Token).map Token.text).flatten))
            (normalizeText nf query) i)) = [] :=
        List.filter_eq_nil_iff.mpr (fun a _ => by simpa using hocc0 a)
      rw [hfilter]
      rfl
    | cons t0 rest =>
      rw [← htk]
      have hne : ¬(jsTrim query = [] ∨ tokens.length = 0) := by
        rw [htk]
        simp [h4]
      rw [findMatches, if_neg hne]
      rw [findMatchesGo_spec nf _ _ _ _ hlen h3 0]
      congr 1
      apply List.filter_congr
      intro a _
      simp
  refine ⟨hconj1, ?_, ?_⟩
  · rw [hconj1]
    apply List.Pairwise.chain'
    apply List.Pairwise.map
    · intro a b hab
      exact hab
    · exact List.Pairwise.sublist (List.filter_sublist _)
        (List.pairwise_lt_range' 0 _)
  · intro sp hsp
    rw [hconj1] at hsp
    rw [List.mem_map] at hsp
    obtain ⟨i, hi, rfl⟩ := hsp
    rw [List.mem_filter] at hi
    obtain ⟨_, hocc⟩ := hi
    rw [occursAt, decide_eq_true_eq] at hocc
    simp only [Nat.add_sub_cancel_left]
    have hsub : (((((tokens.map Token.text).flatten).drop i).take
          (normalizeText nf query).length).flatMap nf)
        = ((normalizeText nf ((tokens.map Token.text).flatten)).drop i).take
          (normalizeText nf query).length := by
      rw [flatMap_eq_map_of_one nf _ (fun c hc => h1 c
        (List.mem_of_mem_drop (List.mem_of_mem_take hc)))]
      rw [List.map_take, List.map_drop]
      rw [← hmap, ← hT']
    calc normalizeText nf ((((tokens.map Token.text).flatten).drop i).take
            (normalizeText nf query).length)
        = jsTrim ((((((tokens.map Token.text).flatten).drop i).take
            (normalizeText nf query).length)).flatMap nf) := rfl
      _ = jsTrim (((normalizeText nf ((tokens.map Token.text).flatten)).drop i).take
            (normalizeText nf query).length) := by rw [hsub]
      _ = jsTrim (normalizeText nf query) := by rw [hocc]
      _ = normalizeText nf query := hQtrim

end CAW

namespace CAW

/-- C3 fails on the code: `normalizeText` also trims, and
`findOriginalIndex`'s per-character walk does not account for the trimmed
leading whitespace, so for the text `" ab"` and query `"ab"` the single
emitted span is `[0, 2)` — whose substring `" a"` does not normalize to
the query under either the claim's compose-and-lowercase normalization or
the code's trimming `normalizeText`.  (The correct span is `[1, 3)`.) -/
theorem claim_c3_counterexample :
    (findMatches nfId [⟨[' ', 'a', 'b'], 0, 3⟩] ['a', 'b']).map
        (fun sp => (sp.startIndex, sp.endIndex)) = [(0, 2)] ∧
    (([' ', 'a', 'b'].drop 0).take 2 = [' ', 'a']) ∧
    [' ', 'a'].flatMap nfId ≠ ['a', 'b'].flatMap nfId ∧
    normalizeText nfId [' ', 'a'] ≠ normalizeText nfId ['a', 'b'] := by
  have hfm : findMatches nfId [⟨[' ', 'a', 'b'], 0, 3⟩] ['a', 'b'] =
      [⟨0, 2, generateTermId ['a', 'b']⟩] := by
    rw [findMatches]
    rw [if_neg (by decide)]
    simp only [List.map, List.flatten]
    rw [show ([' ', 'a', 'b'] ++ [] : List Char) = [' ', 'a', 'b'] from rfl]
    rw [show normalizeText nfId [' ', 'a', 'b'] = ['a', 'b'] from by decide]
    rw [show normalizeText nfId ['a', 'b'] = ['a', 'b'] from by decide]
    rw [findMatchesGo_some _ _ _ _ _ _ 0 (by decide) (by decide)]
    rw [findMatchesGo_none _ _ _ _ _ _ (by decide)]
    rw [show findOriginalIndex nfId [' ', 'a', 'b'] ['a', 'b'] 0 = 0 from by decide]
    rw [show findOriginalIndex nfId [' ', 'a', 'b'] ['a', 'b']
        (0 + List.length ['a', 'b']) = 2 from by decide]
  refine ⟨?_, by decide, by decide, by decide⟩
  rw [hfm]
  rfl

/-- Witness for C3 (amended) on the text `"ab ab"` and query `"AB"`:
normalization is per-character and trim-free, both occurrences are found
in ascending order, and each span's substring normalizes to the query. -/
theorem claim_c3_amended_witness :
    (∀ c ∈ (tokensW.map Token.text).flatten, (nfLower c).length = 1) ∧
    findMatches nfLower tokensW ['A', 'B']
      = ((List.range' 0
            ((normalizeText nfLower ((tokensW.map Token.text).flatten)).length + 1)).filter
          (fun i => occursAt (normalizeText nfLower ((tokensW.map Token.text).flatten))
            (normalizeText nfLower ['A', 'B']) i)).map
          (fun i => ⟨i, i + (normalizeText nfLower ['A', 'B']).length,
            generateTermId ['A', 'B']⟩) ∧
    List.Chain' (fun a b => a.startIndex < b.startIndex)
      (findMatches nfLower tokensW ['A', 'B']) ∧
    (∀ sp ∈ findMatches nfLower tokensW ['A', 'B'],
      normalizeText nfLower ((((tokensW.map Token.text).flatten).drop sp.startIndex).take
          (sp.endIndex - sp.startIndex))
        = normalizeText nfLower ['A', 'B']) := by
  have h := claim_c3_amended nfLower tokensW ['A', 'B'] (by decide) (by decide) (by decide)
    (by decide)
  exact ⟨by decide, h.1, h.2.1, h.2.2⟩

end CAW
